import Mathlib

/-!
Shallow embedding of the OpenAI stream collector
(`src-tauri/src/proxy/mappers/openai/collector.rs`, function
`collect_stream_to_json`) together with theorems about its behaviour.

Strings are modelled as lists of characters (`Str`); each string primitive
used by the Rust code (`str::trim`, `str::starts_with`,
`str::trim_start_matches`, `str::lines`) is given a faithful Lean
counterpart.  The incoming byte stream is modelled at the level of its
decoded text: each item of the input sequence is either a transport error
message or the decoded text of one chunk.  JSON parsing (`serde_json`) is
an external library, so the collector is parameterised by an arbitrary
parse function `Str → Option Json`.
-/

/-- Characters, as a list. Rust `&str` / `String` counterpart. -/
abbrev Str := List Char

/-- Rust `char::is_whitespace`: the Unicode White_Space property. -/
def wsChar (c : Char) : Bool :=
  c = ' ' || c = '\t' || c = '\n' || c = '\x0b' || c = '\x0c' || c = '\r' ||
  c.val = 0x85 || c.val = 0xA0 || c.val = 0x1680 ||
  (0x2000 ≤ c.val && c.val ≤ 0x200A) ||
  c.val = 0x2028 || c.val = 0x2029 || c.val = 0x202F || c.val = 0x205F ||
  c.val = 0x3000

/-- Rust `str::trim_start` (restricted to whole-character whitespace). -/
def trimL (s : Str) : Str := s.dropWhile wsChar

/-- Rust `str::trim_end`. -/
def trimR (s : Str) : Str := (s.reverse.dropWhile wsChar).reverse

/-- Rust `str::trim`: whitespace removed from both ends. -/
def strTrim (s : Str) : Str := trimR (trimL s)

/-- Rust `str::starts_with` for a string pattern. -/
def strStartsWith (pat s : Str) : Bool := pat.isPrefixOf s

/-- Fuel-driven worker for `trimStartMatches`; the fuel bounds the number of
prefix removals (each removal strips at least one character when the
pattern is non-empty). -/
def trimStartMatchesAux (pat : Str) : Nat → Str → Str
  | 0, s => s
  | fuel + 1, s =>
    if !pat.isEmpty && pat.isPrefixOf s then
      trimStartMatchesAux pat fuel (s.drop pat.length)
    else s

/-- Rust `str::trim_start_matches`: all leading occurrences of the pattern
are repeatedly removed. -/
def trimStartMatches (pat s : Str) : Str := trimStartMatchesAux pat s.length s

/-- Split a character list at every newline character; the resulting list
has one part per newline-separated segment (always non-empty). -/
def splitNl : Str → List Str
  | [] => [[]]
  | c :: cs =>
    match splitNl cs with
    | [] => [[c]]
    | h :: t => if c = '\n' then [] :: h :: t else (c :: h) :: t

/-- Remove one trailing carriage return, as Rust `str::lines` does on a
newline-terminated line. -/
def stripCr (l : Str) : Str := if l.getLast? = some '\r' then l.dropLast else l

/-- Rust `str::lines`: split at `\n`, drop a final empty segment (which
stands for a terminating newline or the empty string), and strip one `\r`
from every newline-terminated line.  An unterminated final line keeps a
trailing `\r`. -/
def rustLines (s : Str) : List Str :=
  if (splitNl s).getLast? = some [] then (splitNl s).dropLast.map stripCr
  else (splitNl s).dropLast.map stripCr ++ ((splitNl s).getLast?).toList

/-- Concatenation of lines, each terminated by a newline character. -/
def strUnlines (ls : List Str) : Str := (ls.map (fun l => l ++ ['\n'])).flatten

/-- JSON values, mirroring `serde_json::Value` (numbers restricted to the
integers, which covers every numeric field the collector reads). -/
inductive Json where
  | null
  | bool (b : Bool)
  | num (n : Int)
  | str (s : Str)
  | arr (elems : List Json)
  | obj (fields : List (Str × Json))

/-- `serde_json::Value::get` with a string key: field lookup on objects,
`None` on every other variant. -/
def Json.get (j : Json) (key : Str) : Option Json :=
  match j with
  | .obj fields => fields.lookup key
  | _ => none

/-- `serde_json::Value::as_str`. -/
def Json.asStr : Json → Option Str
  | .str s => some s
  | _ => none

/-- `serde_json::Value::as_u64`: the number when it is a non-negative
integer representable in 64 bits. -/
def Json.asU64 : Json → Option Nat
  | .num n => if 0 ≤ n ∧ n < 2 ^ 64 then some n.toNat else none
  | _ => none

/-- `serde_json::Value::as_array`. -/
def Json.asArr : Json → Option (List Json)
  | .arr elems => some elems
  | _ => none

/-- Modelled from the spec: the token-usage record (the repository's
`models.rs` defining `OpenAIUsage` is not among the sources); §6 of the
spec gives prompt/completion/total token counts. -/
structure OpenAIUsage where
  prompt_tokens : Nat
  completion_tokens : Nat
  total_tokens : Nat
deriving DecidableEq

/-- Modelled from the spec: `serde_json::from_value::<OpenAIUsage>` —
deserialization succeeds exactly when the three token counts are present
as 64-bit non-negative integers (extra fields are tolerated). -/
def parseUsage (j : Json) : Option OpenAIUsage :=
  match (j.get "prompt_tokens".toList).bind Json.asU64,
        (j.get "completion_tokens".toList).bind Json.asU64,
        (j.get "total_tokens".toList).bind Json.asU64 with
  | some p, some c, some t => some ⟨p, c, t⟩
  | _, _, _ => none

/-- Modelled from the spec: message content (`OpenAIContent::String` is the
only variant the collector produces). -/
inductive OpenAIContent where
  | str (s : Str)
deriving DecidableEq

/-- Modelled from the spec: the assembled chat message (shape from §6 of
the spec and the collector's construction site).  `tool_calls` is always
`none` in this version, so its payload type is immaterial. -/
structure OpenAIMessage where
  role : Str
  content : Option OpenAIContent
  reasoning_content : Option Str
  tool_calls : Option (List Json)
  tool_call_id : Option Str
  name : Option Str

/-- Modelled from the spec: one output choice. -/
structure Choice where
  index : Nat
  message : OpenAIMessage
  finish_reason : Option Str

/-- Modelled from the spec: the final chat-completion response record. -/
structure OpenAIResponse where
  id : Str
  object : Str
  created : Nat
  model : Str
  choices : List Choice
  usage : Option OpenAIUsage

/-- The collector's mutable state during one call: the meta fields of the
response under construction plus the local accumulators of
`collect_stream_to_json`.  (The Rust local `tool_calls` is declared but
never read or written after initialization, and the final message always
carries `tool_calls: None`; the dead accumulator is omitted here.) -/
structure CollectorState where
  id : Str
  created : Nat
  model : Str
  role : Option Str
  content_parts : List Str
  reasoning_parts : List Str
  finish_reason : Option Str
  usage : Option OpenAIUsage
deriving DecidableEq

/-- The fresh state at the start of a call: sentinel id and model, caller
supplied timestamp (the Rust code reads the ambient clock here). -/
def initState (now : Nat) : CollectorState :=
  { id := "chatcmpl-unknown".toList
    created := now
    model := "unknown".toList
    role := none
    content_parts := []
    reasoning_parts := []
    finish_reason := none
    usage := none }

/-- `if let Some(id) = json.get("id").and_then(|v| v.as_str())`. -/
def updId (st : CollectorState) (j : Json) : CollectorState :=
  match (j.get "id".toList).bind Json.asStr with
  | some s => { st with id := s }
  | none => st

/-- `if let Some(model) = json.get("model").and_then(|v| v.as_str())`. -/
def updModel (st : CollectorState) (j : Json) : CollectorState :=
  match (j.get "model".toList).bind Json.asStr with
  | some s => { st with model := s }
  | none => st

/-- `if let Some(created) = json.get("created").and_then(|v| v.as_u64())`. -/
def updCreated (st : CollectorState) (j : Json) : CollectorState :=
  match (j.get "created".toList).bind Json.asU64 with
  | some n => { st with created := n }
  | none => st

/-- `if let Some(usage) = json.get("usage")` then replace on successful
deserialization. -/
def updUsage (st : CollectorState) (j : Json) : CollectorState :=
  match (j.get "usage".toList).bind parseUsage with
  | some u => { st with usage := some u }
  | none => st

/-- `delta.get("role").and_then(|v| v.as_str())`. -/
def updRole (st : CollectorState) (delta : Json) : CollectorState :=
  match (delta.get "role".toList).bind Json.asStr with
  | some r => { st with role := some r }
  | none => st

/-- `delta.get("content").and_then(|v| v.as_str())` appends to
`content_parts`. -/
def updContent (st : CollectorState) (delta : Json) : CollectorState :=
  match (delta.get "content".toList).bind Json.asStr with
  | some c => { st with content_parts := st.content_parts ++ [c] }
  | none => st

/-- `delta.get("reasoning_content").and_then(|v| v.as_str())` appends to
`reasoning_parts`. -/
def updReasoning (st : CollectorState) (delta : Json) : CollectorState :=
  match (delta.get "reasoning_content".toList).bind Json.asStr with
  | some rc => { st with reasoning_parts := st.reasoning_parts ++ [rc] }
  | none => st

/-- `if let Some(delta) = choice.get("delta")`: role, content and
reasoning-content updates, in source order. -/
def updDelta (st : CollectorState) (choice : Json) : CollectorState :=
  match choice.get "delta".toList with
  | some delta => updReasoning (updContent (updRole st delta) delta) delta
  | none => st

/-- `choice.get("finish_reason").and_then(|v| v.as_str())` (a sibling of
`delta`). -/
def updFR (st : CollectorState) (choice : Json) : CollectorState :=
  match (choice.get "finish_reason".toList).bind Json.asStr with
  | some fr => { st with finish_reason := some fr }
  | none => st

/-- The `choices` block: only the first element of the array is inspected;
its delta fields and then its `finish_reason` are merged. -/
def updChoice (st : CollectorState) (j : Json) : CollectorState :=
  match (j.get "choices".toList).bind Json.asArr with
  | some choices =>
    match choices.head? with
    | some choice => updFR (updDelta st choice) choice
    | none => st
  | none => st

/-- Merge one successfully parsed event into the state, in the source's
order: id, model, created, usage, then the first choice. -/
def mergeEvent (st : CollectorState) (j : Json) : CollectorState :=
  updChoice (updUsage (updCreated (updModel (updId st j) j) j) j) j

/-- The SSE data prefix. -/
def dataPrefix : Str := "data: ".toList

/-- The stream-termination sentinel payload. -/
def doneLit : Str := "[DONE]".toList

/-- Process one line of a chunk: trim, require the `data: ` prefix, strip
all leading repetitions of the prefix, trim the payload, skip the
`[DONE]` sentinel, parse the payload and merge it (a payload that fails to
parse contributes nothing). -/
def processLine (parse : Str → Option Json) (st : CollectorState)
    (line : Str) : CollectorState :=
  let l := strTrim line
  if strStartsWith dataPrefix l then
    let d := strTrim (trimStartMatches dataPrefix l)
    if d = doneLit then st
    else
      match parse d with
      | some j => mergeEvent st j
      | none => st
  else st

/-- Process one decoded chunk line by line. -/
def processChunk (parse : Str → Option Json) (st : CollectorState)
    (chunk : Str) : CollectorState :=
  (rustLines chunk).foldl (processLine parse) st

/-- The stream-consuming loop: a transport error aborts immediately with a
message naming the failure; a chunk is processed and the loop continues. -/
def collectAux (parse : Str → Option Json) :
    CollectorState → List (Except Str Str) → Except Str CollectorState
  | st, [] => .ok st
  | _, .error e :: _ => .error ("Stream error: ".toList ++ e)
  | st, .ok chunk :: rest => collectAux parse (processChunk parse st chunk) rest

/-- Final assembly: join the content parts (empty join is the empty
string), represent an empty reasoning accumulator as an absent field,
default the role to `assistant` and the finish reason to `stop`, and emit
the single choice at index 0. -/
def finalize (st : CollectorState) : OpenAIResponse :=
  { id := st.id
    object := "chat.completion".toList
    created := st.created
    model := st.model
    choices :=
      [{ index := 0
         message :=
           { role := st.role.getD "assistant".toList
             content := some (OpenAIContent.str st.content_parts.flatten)
             reasoning_content :=
               if st.reasoning_parts.isEmpty then none
               else some st.reasoning_parts.flatten
             tool_calls := none
             tool_call_id := none
             name := none }
         finish_reason := Option.or st.finish_reason (some "stop".toList) }]
    usage := st.usage }

/-- The collector `collect_stream_to_json`, parameterised by the JSON
parser and the ambient start time. -/
def collect_stream_to_json (parse : Str → Option Json) (now : Nat)
    (items : List (Except Str Str)) : Except Str OpenAIResponse :=
  (collectAux parse (initState now) items).map finalize

/-! ### Per-event observations

Projections of one parsed event, used to state what each merge step does.
Each mirrors the exact access path of the source. -/

/-- The event's `id` field, when it is a string. -/
def evId (j : Json) : Option Str := (j.get "id".toList).bind Json.asStr

/-- The event's `model` field, when it is a string. -/
def evModel (j : Json) : Option Str := (j.get "model".toList).bind Json.asStr

/-- The event's `created` field, when it is a `u64` number. -/
def evCreated (j : Json) : Option Nat := (j.get "created".toList).bind Json.asU64

/-- The event's `usage` field, when it deserializes. -/
def evUsage (j : Json) : Option OpenAIUsage := (j.get "usage".toList).bind parseUsage

/-- The first element of the event's `choices` array, when present. -/
def firstChoice (j : Json) : Option Json :=
  ((j.get "choices".toList).bind Json.asArr).bind List.head?

/-- The choice's `delta.role`, when a string. -/
def dRole (choice : Json) : Option Str :=
  (choice.get "delta".toList).bind fun d => (d.get "role".toList).bind Json.asStr

/-- The choice's `delta.content` fragment, when a string (as a
zero-or-one-element list). -/
def dContent (choice : Json) : List Str :=
  ((choice.get "delta".toList).bind fun d =>
    (d.get "content".toList).bind Json.asStr).toList

/-- The choice's `delta.reasoning_content` fragment, when a string. -/
def dReasoning (choice : Json) : List Str :=
  ((choice.get "delta".toList).bind fun d =>
    (d.get "reasoning_content".toList).bind Json.asStr).toList

/-- The choice's `finish_reason` (a sibling of `delta`), when a string. -/
def cFR (choice : Json) : Option Str :=
  (choice.get "finish_reason".toList).bind Json.asStr

/-- The event's role update. -/
def evRole (j : Json) : Option Str := (firstChoice j).bind dRole

/-- The event's text-content delta (zero or one fragment). -/
def evContent (j : Json) : List Str :=
  match firstChoice j with
  | some c => dContent c
  | none => []

/-- The event's reasoning-content delta (zero or one fragment). -/
def evReasoning (j : Json) : List Str :=
  match firstChoice j with
  | some c => dReasoning c
  | none => []

/-- The event's finish reason, when a string. -/
def evFR (j : Json) : Option Str := (firstChoice j).bind cFR

/-! ### Characterization of the merge steps -/

theorem updId_spec (st : CollectorState) (j : Json) :
    updId st j = { st with id := (evId j).getD st.id } := by
  unfold updId evId
  cases h : (j.get "id".toList).bind Json.asStr <;> simp [h]

theorem updModel_spec (st : CollectorState) (j : Json) :
    updModel st j = { st with model := (evModel j).getD st.model } := by
  unfold updModel evModel
  cases h : (j.get "model".toList).bind Json.asStr <;> simp [h]

theorem updCreated_spec (st : CollectorState) (j : Json) :
    updCreated st j = { st with created := (evCreated j).getD st.created } := by
  unfold updCreated evCreated
  cases h : (j.get "created".toList).bind Json.asU64 <;> simp [h]

theorem updUsage_spec (st : CollectorState) (j : Json) :
    updUsage st j = { st with usage := Option.or (evUsage j) st.usage } := by
  unfold updUsage evUsage
  cases h : (j.get "usage".toList).bind parseUsage <;> simp [h, Option.or]

theorem updRole_spec (st : CollectorState) (delta : Json) :
    updRole st delta =
      { st with role := Option.or ((delta.get "role".toList).bind Json.asStr) st.role } := by
  unfold updRole
  cases h : (delta.get "role".toList).bind Json.asStr <;> simp [h, Option.or]

theorem updContent_spec (st : CollectorState) (delta : Json) :
    updContent st delta =
      { st with content_parts :=
          st.content_parts ++ ((delta.get "content".toList).bind Json.asStr).toList } := by
  unfold updContent
  cases h : (delta.get "content".toList).bind Json.asStr <;> simp [h]

theorem updReasoning_spec (st : CollectorState) (delta : Json) :
    updReasoning st delta =
      { st with reasoning_parts :=
          st.reasoning_parts ++
            ((delta.get "reasoning_content".toList).bind Json.asStr).toList } := by
  unfold updReasoning
  cases h : (delta.get "reasoning_content".toList).bind Json.asStr <;> simp [h]

theorem updDelta_spec (st : CollectorState) (choice : Json) :
    updDelta st choice =
      { st with
          role := Option.or (dRole choice) st.role
          content_parts := st.content_parts ++ dContent choice
          reasoning_parts := st.reasoning_parts ++ dReasoning choice } := by
  unfold updDelta dRole dContent dReasoning
  cases h : choice.get "delta".toList <;>
    simp [h, updRole_spec, updContent_spec, updReasoning_spec, Option.or, Option.bind]

theorem updFR_spec (st : CollectorState) (choice : Json) :
    updFR st choice =
      { st with finish_reason := Option.or (cFR choice) st.finish_reason } := by
  unfold updFR cFR
  cases h : (choice.get "finish_reason".toList).bind Json.asStr <;> simp [h, Option.or]

theorem updChoice_spec (st : CollectorState) (j : Json) :
    updChoice st j =
      { st with
          role := Option.or (evRole j) st.role
          content_parts := st.content_parts ++ evContent j
          reasoning_parts := st.reasoning_parts ++ evReasoning j
          finish_reason := Option.or (evFR j) st.finish_reason } := by
  unfold updChoice evRole evContent evReasoning evFR firstChoice
  cases h1 : (j.get "choices".toList).bind Json.asArr
  · simp [h1, Option.or]
  · rename_i choices
    cases h2 : choices.head? <;>
      simp [h1, h2, updDelta_spec, updFR_spec, Option.or, Option.bind]

theorem mergeEvent_spec (st : CollectorState) (j : Json) :
    mergeEvent st j =
      { id := (evId j).getD st.id
        created := (evCreated j).getD st.created
        model := (evModel j).getD st.model
        role := Option.or (evRole j) st.role
        content_parts := st.content_parts ++ evContent j
        reasoning_parts := st.reasoning_parts ++ evReasoning j
        finish_reason := Option.or (evFR j) st.finish_reason
        usage := Option.or (evUsage j) st.usage } := by
  simp [mergeEvent, updId_spec, updModel_spec, updCreated_spec, updUsage_spec,
    updChoice_spec]

/-! ### Per-line, per-chunk and per-stream observations -/

/-- The payload a significant line submits to the JSON parser: the trimmed
line with all leading `data: ` repetitions removed, trimmed again. -/
def payloadOf (line : Str) : Str :=
  strTrim (trimStartMatches dataPrefix (strTrim line))

/-- The event a line contributes: `none` for insignificant lines, the
`[DONE]` sentinel and payloads the parser rejects. -/
def lineEvent (parse : Str → Option Json) (line : Str) : Option Json :=
  let l := strTrim line
  if strStartsWith dataPrefix l then
    let d := strTrim (trimStartMatches dataPrefix l)
    if d = doneLit then none else parse d
  else none

theorem processLine_eq (parse : Str → Option Json) (st : CollectorState)
    (line : Str) :
    processLine parse st line =
      match lineEvent parse line with
      | some j => mergeEvent st j
      | none => st := by
  unfold processLine lineEvent
  by_cases h1 : strStartsWith dataPrefix (strTrim line) = true
  · simp only [h1, if_true]
    by_cases h2 : strTrim (trimStartMatches dataPrefix (strTrim line)) = doneLit
    · simp [h2]
    · simp only [h2, if_false]
  · simp [h1]

/-- Content fragments contributed by one line. -/
def lineContent (parse : Str → Option Json) (line : Str) : List Str :=
  match lineEvent parse line with
  | some j => evContent j
  | none => []

/-- Reasoning fragments contributed by one line. -/
def lineReasoning (parse : Str → Option Json) (line : Str) : List Str :=
  match lineEvent parse line with
  | some j => evReasoning j
  | none => []

/-- The id carried by one line's event, when any. -/
def lineId (parse : Str → Option Json) (line : Str) : Option Str :=
  (lineEvent parse line).bind evId

/-- The model carried by one line's event, when any. -/
def lineModel (parse : Str → Option Json) (line : Str) : Option Str :=
  (lineEvent parse line).bind evModel

/-- The finish reason carried by one line's event, when any. -/
def lineFR (parse : Str → Option Json) (line : Str) : Option Str :=
  (lineEvent parse line).bind evFR

/-- All content fragments of one chunk, in line order. -/
def chunkContent (parse : Str → Option Json) (c : Str) : List Str :=
  (rustLines c).flatMap (lineContent parse)

/-- All reasoning fragments of one chunk. -/
def chunkReasoning (parse : Str → Option Json) (c : Str) : List Str :=
  (rustLines c).flatMap (lineReasoning parse)

/-- All string ids seen in one chunk. -/
def chunkIds (parse : Str → Option Json) (c : Str) : List Str :=
  (rustLines c).flatMap fun l => (lineId parse l).toList

/-- All string models seen in one chunk. -/
def chunkModels (parse : Str → Option Json) (c : Str) : List Str :=
  (rustLines c).flatMap fun l => (lineModel parse l).toList

/-- All string finish reasons seen in one chunk. -/
def chunkFRs (parse : Str → Option Json) (c : Str) : List Str :=
  (rustLines c).flatMap fun l => (lineFR parse l).toList

/-- Content fragments contributed by one stream item (errors contribute
nothing, and abort collection anyway). -/
def itemContent (parse : Str → Option Json) : Except Str Str → List Str
  | .ok c => chunkContent parse c
  | .error _ => []

/-- Reasoning fragments contributed by one stream item. -/
def itemReasoning (parse : Str → Option Json) : Except Str Str → List Str
  | .ok c => chunkReasoning parse c
  | .error _ => []

/-- Ids contributed by one stream item. -/
def itemIds (parse : Str → Option Json) : Except Str Str → List Str
  | .ok c => chunkIds parse c
  | .error _ => []

/-- Models contributed by one stream item. -/
def itemModels (parse : Str → Option Json) : Except Str Str → List Str
  | .ok c => chunkModels parse c
  | .error _ => []

/-- Finish reasons contributed by one stream item. -/
def itemFRs (parse : Str → Option Json) : Except Str Str → List Str
  | .ok c => chunkFRs parse c
  | .error _ => []

/-- All content fragments of the whole stream, in arrival order. -/
def streamContent (parse : Str → Option Json) (items : List (Except Str Str)) :
    List Str :=
  items.flatMap (itemContent parse)

/-- All reasoning fragments of the whole stream, in arrival order. -/
def streamReasoning (parse : Str → Option Json) (items : List (Except Str Str)) :
    List Str :=
  items.flatMap (itemReasoning parse)

/-- All string-valued ids of the whole stream, in arrival order. -/
def streamIds (parse : Str → Option Json) (items : List (Except Str Str)) :
    List Str :=
  items.flatMap (itemIds parse)

/-- All string-valued models of the whole stream, in arrival order. -/
def streamModels (parse : Str → Option Json) (items : List (Except Str Str)) :
    List Str :=
  items.flatMap (itemModels parse)

/-- All string-valued finish reasons of the whole stream, in arrival
order. -/
def streamFRs (parse : Str → Option Json) (items : List (Except Str Str)) :
    List Str :=
  items.flatMap (itemFRs parse)

/-- One stream item's effect on the state (an error item is unreachable in
a successful run and leaves the state alone). -/
def stepItem (parse : Str → Option Json) (st : CollectorState) :
    Except Str Str → CollectorState
  | .ok c => processChunk parse st c
  | .error _ => st

/-! ### Per-line field effects -/

theorem processLine_content (parse : Str → Option Json) (st : CollectorState)
    (line : Str) :
    (processLine parse st line).content_parts =
      st.content_parts ++ lineContent parse line := by
  rw [processLine_eq]
  cases h : lineEvent parse line <;> simp [lineContent, h, mergeEvent_spec]

theorem processLine_reasoning (parse : Str → Option Json) (st : CollectorState)
    (line : Str) :
    (processLine parse st line).reasoning_parts =
      st.reasoning_parts ++ lineReasoning parse line := by
  rw [processLine_eq]
  cases h : lineEvent parse line <;> simp [lineReasoning, h, mergeEvent_spec]

theorem processLine_id (parse : Str → Option Json) (st : CollectorState)
    (line : Str) :
    (processLine parse st line).id = (lineId parse line).getD st.id := by
  rw [processLine_eq]
  cases h : lineEvent parse line <;> simp [lineId, h, mergeEvent_spec]

theorem processLine_model (parse : Str → Option Json) (st : CollectorState)
    (line : Str) :
    (processLine parse st line).model = (lineModel parse line).getD st.model := by
  rw [processLine_eq]
  cases h : lineEvent parse line <;> simp [lineModel, h, mergeEvent_spec]

theorem processLine_fr (parse : Str → Option Json) (st : CollectorState)
    (line : Str) :
    (processLine parse st line).finish_reason =
      Option.or (lineFR parse line) st.finish_reason := by
  rw [processLine_eq]
  cases h : lineEvent parse line <;> simp [lineFR, h, mergeEvent_spec, Option.or]

/-! ### List bookkeeping -/

theorem getLastD_append {α : Type} (l1 l2 : List α) (d : α) :
    (l1 ++ l2).getLastD d = l2.getLastD (l1.getLastD d) := by
  induction l1 generalizing d with
  | nil => simp
  | cons a t ih =>
    rw [List.cons_append, List.getLastD_cons, List.getLastD_cons, ih]

theorem or_getLast?_append {α : Type} (l1 l2 : List α) (v : Option α) :
    Option.or ((l1 ++ l2).getLast?) v =
      Option.or l2.getLast? (Option.or l1.getLast? v) := by
  rw [List.getLast?_append]
  cases l2.getLast? <;> cases l1.getLast? <;> rfl

theorem toList_getLastD {α : Type} (o : Option α) (v : α) :
    (o.toList).getLastD v = o.getD v := by
  cases o <;> simp

theorem toList_getLast?_or {α : Type} (o : Option α) (v : Option α) :
    Option.or (o.toList.getLast?) v = Option.or o v := by
  cases o <;> simp [Option.or]

/-! ### Fold characterizations, chunk level -/

theorem foldLines_content (parse : Str → Option Json) (lines : List Str)
    (st : CollectorState) :
    (lines.foldl (processLine parse) st).content_parts =
      st.content_parts ++ lines.flatMap (lineContent parse) := by
  induction lines generalizing st with
  | nil => simp
  | cons l t ih =>
    simp only [List.foldl_cons, List.flatMap_cons]
    rw [ih, processLine_content, List.append_assoc]

theorem foldLines_reasoning (parse : Str → Option Json) (lines : List Str)
    (st : CollectorState) :
    (lines.foldl (processLine parse) st).reasoning_parts =
      st.reasoning_parts ++ lines.flatMap (lineReasoning parse) := by
  induction lines generalizing st with
  | nil => simp
  | cons l t ih =>
    simp only [List.foldl_cons, List.flatMap_cons]
    rw [ih, processLine_reasoning, List.append_assoc]

theorem foldLines_id (parse : Str → Option Json) (lines : List Str)
    (st : CollectorState) :
    (lines.foldl (processLine parse) st).id =
      (lines.flatMap fun l => (lineId parse l).toList).getLastD st.id := by
  induction lines generalizing st with
  | nil => simp
  | cons l t ih =>
    simp only [List.foldl_cons, List.flatMap_cons]
    rw [ih, processLine_id, getLastD_append, toList_getLastD]

theorem foldLines_model (parse : Str → Option Json) (lines : List Str)
    (st : CollectorState) :
    (lines.foldl (processLine parse) st).model =
      (lines.flatMap fun l => (lineModel parse l).toList).getLastD st.model := by
  induction lines generalizing st with
  | nil => simp
  | cons l t ih =>
    simp only [List.foldl_cons, List.flatMap_cons]
    rw [ih, processLine_model, getLastD_append, toList_getLastD]

theorem foldLines_fr (parse : Str → Option Json) (lines : List Str)
    (st : CollectorState) :
    (lines.foldl (processLine parse) st).finish_reason =
      Option.or ((lines.flatMap fun l => (lineFR parse l).toList).getLast?)
        st.finish_reason := by
  induction lines generalizing st with
  | nil => simp [Option.or]
  | cons l t ih =>
    simp only [List.foldl_cons, List.flatMap_cons]
    rw [ih, processLine_fr, or_getLast?_append, toList_getLast?_or]

/-! ### Fold characterizations, stream level -/

theorem stepItem_content (parse : Str → Option Json) (st : CollectorState)
    (it : Except Str Str) :
    (stepItem parse st it).content_parts =
      st.content_parts ++ itemContent parse it := by
  cases it <;>
    simp [stepItem, itemContent, processChunk, chunkContent, foldLines_content]

theorem stepItem_reasoning (parse : Str → Option Json) (st : CollectorState)
    (it : Except Str Str) :
    (stepItem parse st it).reasoning_parts =
      st.reasoning_parts ++ itemReasoning parse it := by
  cases it <;>
    simp [stepItem, itemReasoning, processChunk, chunkReasoning, foldLines_reasoning]

theorem stepItem_id (parse : Str → Option Json) (st : CollectorState)
    (it : Except Str Str) :
    (stepItem parse st it).id = (itemIds parse it).getLastD st.id := by
  cases it <;> simp [stepItem, itemIds, processChunk, chunkIds, foldLines_id]

theorem stepItem_model (parse : Str → Option Json) (st : CollectorState)
    (it : Except Str Str) :
    (stepItem parse st it).model = (itemModels parse it).getLastD st.model := by
  cases it <;> simp [stepItem, itemModels, processChunk, chunkModels, foldLines_model]

theorem stepItem_fr (parse : Str → Option Json) (st : CollectorState)
    (it : Except Str Str) :
    (stepItem parse st it).finish_reason =
      Option.or ((itemFRs parse it).getLast?) st.finish_reason := by
  cases it <;> simp [stepItem, itemFRs, processChunk, chunkFRs, foldLines_fr, Option.or]

theorem foldItems_content (parse : Str → Option Json)
    (items : List (Except Str Str)) (st : CollectorState) :
    (items.foldl (stepItem parse) st).content_parts =
      st.content_parts ++ streamContent parse items := by
  induction items generalizing st with
  | nil => simp [streamContent]
  | cons it t ih =>
    simp only [streamContent] at ih ⊢
    simp only [List.foldl_cons, List.flatMap_cons]
    rw [ih, stepItem_content, List.append_assoc]

theorem foldItems_reasoning (parse : Str → Option Json)
    (items : List (Except Str Str)) (st : CollectorState) :
    (items.foldl (stepItem parse) st).reasoning_parts =
      st.reasoning_parts ++ streamReasoning parse items := by
  induction items generalizing st with
  | nil => simp [streamReasoning]
  | cons it t ih =>
    simp only [streamReasoning] at ih ⊢
    simp only [List.foldl_cons, List.flatMap_cons]
    rw [ih, stepItem_reasoning, List.append_assoc]

theorem foldItems_id (parse : Str → Option Json)
    (items : List (Except Str Str)) (st : CollectorState) :
    (items.foldl (stepItem parse) st).id =
      (streamIds parse items).getLastD st.id := by
  induction items generalizing st with
  | nil => simp [streamIds]
  | cons it t ih =>
    simp only [streamIds] at ih ⊢
    simp only [List.foldl_cons, List.flatMap_cons]
    rw [ih, stepItem_id, getLastD_append]

theorem foldItems_model (parse : Str → Option Json)
    (items : List (Except Str Str)) (st : CollectorState) :
    (items.foldl (stepItem parse) st).model =
      (streamModels parse items).getLastD st.model := by
  induction items generalizing st with
  | nil => simp [streamModels]
  | cons it t ih =>
    simp only [streamModels] at ih ⊢
    simp only [List.foldl_cons, List.flatMap_cons]
    rw [ih, stepItem_model, getLastD_append]

theorem foldItems_fr (parse : Str → Option Json)
    (items : List (Except Str Str)) (st : CollectorState) :
    (items.foldl (stepItem parse) st).finish_reason =
      Option.or ((streamFRs parse items).getLast?) st.finish_reason := by
  induction items generalizing st with
  | nil => simp [streamFRs, Option.or]
  | cons it t ih =>
    simp only [streamFRs] at ih ⊢
    simp only [List.foldl_cons, List.flatMap_cons]
    rw [ih, stepItem_fr, or_getLast?_append]

/-! ### The stream loop -/

theorem collectAux_append (parse : Str → Option Json)
    (pre rest : List (Except Str Str)) (st : CollectorState) :
    collectAux parse st (pre ++ rest) =
      match collectAux parse st pre with
      | .ok st2 => collectAux parse st2 rest
      | .error e => .error e := by
  induction pre generalizing st with
  | nil => simp [collectAux]
  | cons it t ih =>
    cases it with
    | error e => simp [collectAux]
    | ok c => simp only [List.cons_append, collectAux]; exact ih _

theorem collectAux_ok_fold (parse : Str → Option Json)
    (items : List (Except Str Str)) (st st' : CollectorState)
    (h : collectAux parse st items = .ok st') :
    st' = items.foldl (stepItem parse) st := by
  induction items generalizing st with
  | nil => simp only [collectAux, Except.ok.injEq] at h; simp [h]
  | cons it t ih =>
    cases it with
    | error e => simp [collectAux] at h
    | ok c =>
      simp only [collectAux] at h
      simpa [stepItem] using ih _ h

theorem collectAux_all_ok (parse : Str → Option Json)
    (items : List (Except Str Str)) (st : CollectorState)
    (h : items.all Except.isOk = true) :
    collectAux parse st items = .ok (items.foldl (stepItem parse) st) := by
  induction items generalizing st with
  | nil => simp [collectAux]
  | cons it t ih =>
    cases it with
    | error e => simp [Except.isOk, Except.toBool] at h
    | ok c =>
      simp only [List.all_cons, Bool.and_eq_true] at h
      simp only [collectAux, List.foldl_cons, stepItem]
      exact ih _ h.2

theorem collect_ok_fields (parse : Str → Option Json) (now : Nat)
    (items : List (Except Str Str)) (r : OpenAIResponse)
    (h : collect_stream_to_json parse now items = .ok r) :
    r = finalize (items.foldl (stepItem parse) (initState now)) := by
  unfold collect_stream_to_json at h
  cases hA : collectAux parse (initState now) items with
  | error e => rw [hA] at h; simp [Except.map] at h
  | ok st2 =>
    rw [hA] at h
    simp only [Except.map, Except.ok.injEq] at h
    rw [← h, collectAux_ok_fold parse items _ _ hA]

/-- C1: for every stream accepted by the collector, the single message's
content is exactly the concatenation of the text-content deltas of the
successfully parsed events, in arrival order; with no delta it is the
empty string, always present. -/
theorem content_is_concatenation (parse : Str → Option Json) (now : Nat)
    (items : List (Except Str Str)) (r : OpenAIResponse)
    (h : collect_stream_to_json parse now items = .ok r) :
    r.choices.map (fun c => c.message.content) =
      [some (OpenAIContent.str (streamContent parse items).flatten)] := by
  rw [collect_ok_fields parse now items r h]
  simp [finalize, foldItems_content, initState]

def demoParse1 : Str → Option Json := fun s =>
  if s = "\x7b\"choices\":[\x7b\"delta\":\x7b\"content\":\"Hel\"\x7d\x7d]\x7d".toList then
    some (Json.obj [("choices".toList,
      Json.arr [Json.obj [("delta".toList,
        Json.obj [("content".toList, Json.str "Hel".toList)])]])])
  else if s = "\x7b\"choices\":[\x7b\"delta\":\x7b\"content\":\"lo\"\x7d\x7d]\x7d".toList then
    some (Json.obj [("choices".toList,
      Json.arr [Json.obj [("delta".toList,
        Json.obj [("content".toList, Json.str "lo".toList)])]])])
  else none

def demoItems1 : List (Except Str Str) :=
  [.ok "data: \x7b\"choices\":[\x7b\"delta\":\x7b\"content\":\"Hel\"\x7d\x7d]\x7d\n".toList,
   .ok "data: \x7b\"choices\":[\x7b\"delta\":\x7b\"content\":\"lo\"\x7d\x7d]\x7d\ndata: [DONE]\n".toList]

def demoRes1 : OpenAIResponse :=
  match collect_stream_to_json demoParse1 0 demoItems1 with
  | .ok r => r
  | .error _ => finalize (initState 0)

theorem content_is_concatenation_witness :
    demoRes1.choices.map (fun c => c.message.content) =
      [some (OpenAIContent.str (streamContent demoParse1 demoItems1).flatten)] :=
  content_is_concatenation demoParse1 0 demoItems1 demoRes1 (by rfl)

example : demoRes1.choices.map (fun c => c.message.content) =
    [some (OpenAIContent.str "Hello".toList)] := by decide

/-- C5: the final message's reasoning field is absent exactly when no
successfully parsed event carried a string `delta.reasoning_content`, and
otherwise equals the concatenation of all reasoning fragments in arrival
order, accumulated independently of the content channel. -/
theorem reasoning_absent_or_concatenation (parse : Str → Option Json)
    (now : Nat) (items : List (Except Str Str)) (r : OpenAIResponse)
    (h : collect_stream_to_json parse now items = .ok r) :
    r.choices.map (fun c => c.message.reasoning_content) =
      [if streamReasoning parse items = [] then none
       else some (streamReasoning parse items).flatten] := by
  rw [collect_ok_fields parse now items r h]
  cases hE : streamReasoning parse items with
  | nil => simp [finalize, foldItems_reasoning, initState, hE]
  | cons a t => simp [finalize, foldItems_reasoning, initState, hE]

def demoParse5 : Str → Option Json := fun s =>
  if s = "\x7b\"choices\":[\x7b\"delta\":\x7b\"reasoning_content\":\"think\"\x7d\x7d]\x7d".toList then
    some (Json.obj [("choices".toList,
      Json.arr [Json.obj [("delta".toList,
        Json.obj [("reasoning_content".toList, Json.str "think".toList)])]])])
  else if s = "\x7b\"choices\":[\x7b\"delta\":\x7b\"content\":\"hi\"\x7d\x7d]\x7d".toList then
    some (Json.obj [("choices".toList,
      Json.arr [Json.obj [("delta".toList,
        Json.obj [("content".toList, Json.str "hi".toList)])]])])
  else none

def demoItems5 : List (Except Str Str) :=
  [.ok "data: \x7b\"choices\":[\x7b\"delta\":\x7b\"reasoning_content\":\"think\"\x7d\x7d]\x7d\n".toList,
   .ok "data: \x7b\"choices\":[\x7b\"delta\":\x7b\"content\":\"hi\"\x7d\x7d]\x7d\n".toList]

def demoRes5 : OpenAIResponse :=
  match collect_stream_to_json demoParse5 0 demoItems5 with
  | .ok r => r
  | .error _ => finalize (initState 0)

theorem reasoning_absent_or_concatenation_witness :
    demoRes5.choices.map (fun c => c.message.reasoning_content) =
      [if streamReasoning demoParse5 demoItems5 = [] then none
       else some (streamReasoning demoParse5 demoItems5).flatten] :=
  reasoning_absent_or_concatenation demoParse5 0 demoItems5 demoRes5 (by rfl)

example : demoRes5.choices.map (fun c => c.message.reasoning_content) =
    [some "think".toList] := by decide

example : demoRes5.choices.map (fun c => c.message.content) =
    [some (OpenAIContent.str "hi".toList)] := by decide

/-- C2 (amended): the output finish reason is the last string-valued
`finish_reason` seen across all successfully parsed events — including an
empty string, which also overwrites — and `"stop"` only when no event
carried a string `finish_reason` at all. -/
theorem finish_reason_last_string_wins (parse : Str → Option Json)
    (now : Nat) (items : List (Except Str Str)) (r : OpenAIResponse)
    (h : collect_stream_to_json parse now items = .ok r) :
    r.choices.map (fun c => c.finish_reason) =
      [some ((streamFRs parse items).getLastD "stop".toList)] := by
  rw [collect_ok_fields parse now items r h]
  cases hL : (streamFRs parse items).getLast? with
  | none =>
    rw [List.getLastD_eq_getLast?, hL]
    simp [finalize, foldItems_fr, initState, hL, Option.or]
  | some f =>
    rw [List.getLastD_eq_getLast?, hL]
    simp [finalize, foldItems_fr, initState, hL, Option.or]

def c2Parse : Str → Option Json := fun s =>
  if s = "\x7b\"choices\":[\x7b\"finish_reason\":\"\"\x7d]\x7d".toList then
    some (Json.obj [("choices".toList,
      Json.arr [Json.obj [("finish_reason".toList, Json.str [])]])])
  else none

def c2Items : List (Except Str Str) :=
  [.ok "data: \x7b\"choices\":[\x7b\"finish_reason\":\"\"\x7d]\x7d\n".toList]

/-- C2 (counterexample): a stream whose only event carries the empty-string
`finish_reason`. No non-empty finish reason is ever seen, so the claim
demands `"stop"`, but the collector outputs the empty string: the empty
string also overwrites. -/
theorem finish_reason_empty_overwrites_counterexample :
    (collect_stream_to_json c2Parse 0 c2Items).toOption.map
        (fun r => r.choices.map (fun c => c.finish_reason)) = some [some []] ∧
    (streamFRs c2Parse c2Items).filter (fun s => !s.isEmpty) = [] ∧
    some [some ([] : Str)] ≠ some [some ("stop".toList)] := by
  refine ⟨by decide, by decide, by decide⟩

def demoRes2 : OpenAIResponse :=
  match collect_stream_to_json c2Parse 0 c2Items with
  | .ok r => r
  | .error _ => finalize (initState 0)

theorem finish_reason_last_string_wins_witness :
    demoRes2.choices.map (fun c => c.finish_reason) =
      [some ((streamFRs c2Parse c2Items).getLastD "stop".toList)] :=
  finish_reason_last_string_wins c2Parse 0 c2Items demoRes2 (by rfl)

/-- C3 (amended): the aggregate's id and model are overwritten by every
string-valued `id`/`model` an event carries — the empty string included —
so the output id/model is the last string value seen, and the sentinel
defaults only when no event carried a string at all. -/
theorem id_model_last_string_wins (parse : Str → Option Json) (now : Nat)
    (items : List (Except Str Str)) (r : OpenAIResponse)
    (h : collect_stream_to_json parse now items = .ok r) :
    r.id = (streamIds parse items).getLastD "chatcmpl-unknown".toList ∧
    r.model = (streamModels parse items).getLastD "unknown".toList := by
  rw [collect_ok_fields parse now items r h]
  constructor
  · simp [finalize, foldItems_id, initState]
  · simp [finalize, foldItems_model, initState]

def c3Parse : Str → Option Json := fun s =>
  if s = "\x7b\"id\":\"\",\"model\":\"\"\x7d".toList then
    some (Json.obj [("id".toList, Json.str []), ("model".toList, Json.str [])])
  else none

def c3Items : List (Except Str Str) :=
  [.ok "data: \x7b\"id\":\"\",\"model\":\"\"\x7d\n".toList]

/-- C3 (counterexample): an event carrying the empty-string `id` and
`model` does not leave the sentinels in place — the collector overwrites
both with the empty string. -/
theorem empty_id_model_overwrites_counterexample :
    (collect_stream_to_json c3Parse 0 c3Items).toOption.map
        (fun r => (r.id, r.model)) = some ([], []) ∧
    (([], []) : Str × Str) ≠ ("chatcmpl-unknown".toList, "unknown".toList) := by
  refine ⟨by decide, by decide⟩

def demoRes3 : OpenAIResponse :=
  match collect_stream_to_json c3Parse 0 c3Items with
  | .ok r => r
  | .error _ => finalize (initState 0)

theorem id_model_last_string_wins_witness :
    demoRes3.id = (streamIds c3Parse c3Items).getLastD "chatcmpl-unknown".toList ∧
    demoRes3.model = (streamModels c3Parse c3Items).getLastD "unknown".toList :=
  id_model_last_string_wins c3Parse 0 c3Items demoRes3 (by rfl)

/-- C4: a transport error anywhere in the stream aborts collection at the
first such error, returning an error that names the transport failure;
no response record is produced, however many well-formed events preceded
the error. -/
theorem transport_error_aborts (parse : Str → Option Json) (now : Nat)
    (pre post : List (Except Str Str)) (e : Str)
    (h : pre.all Except.isOk = true) :
    collect_stream_to_json parse now (pre ++ .error e :: post) =
      .error ("Stream error: ".toList ++ e) := by
  unfold collect_stream_to_json
  rw [collectAux_append, collectAux_all_ok parse pre (initState now) h]
  rfl

theorem transport_error_aborts_witness :
    collect_stream_to_json (fun _ => none) 0
        [.ok "data: [DONE]\n".toList,
         .error "connection reset by peer".toList,
         .ok "data: x\n".toList] =
      .error ("Stream error: ".toList ++ "connection reset by peer".toList) :=
  transport_error_aborts (fun _ => none) 0 [.ok "data: [DONE]\n".toList]
    [.ok "data: x\n".toList] "connection reset by peer".toList (by decide)

/-! ### Reconstructing lines from chunks built out of known lines -/

theorem map_id_of_mem {α : Type} (f : α → α) (l : List α)
    (h : ∀ a ∈ l, f a = a) : l.map f = l := by
  induction l with
  | nil => rfl
  | cons a t ih =>
    simp only [List.map_cons, h a (List.mem_cons_self a t)]
    rw [ih fun b hb => h b (List.mem_cons_of_mem a hb)]

theorem splitNl_ne_nil (s : Str) : splitNl s ≠ [] := by
  induction s with
  | nil => simp [splitNl]
  | cons c cs ih =>
    unfold splitNl
    cases hcs : splitNl cs with
    | nil => simp
    | cons h t => by_cases hc : c = '\n' <;> simp [hc]

theorem splitNl_append_line (a s : Str) (h : '\n' ∉ a) :
    splitNl (a ++ '\n' :: s) = a :: splitNl s := by
  induction a with
  | nil =>
    obtain ⟨h1, t1, hst⟩ := List.exists_cons_of_ne_nil (splitNl_ne_nil s)
    simp [splitNl, hst]
  | cons c a2 ih =>
    have hc : ¬c = '\n' := fun hc => h (hc ▸ List.mem_cons_self c a2)
    have ha2 : '\n' ∉ a2 := fun hm => h (List.mem_cons_of_mem c hm)
    rw [List.cons_append]
    simp only [splitNl]
    rw [ih ha2]
    simp [hc]

theorem splitNl_unlines (ls : List Str) (h : ∀ l ∈ ls, '\n' ∉ l) :
    splitNl (strUnlines ls) = ls ++ [[]] := by
  induction ls with
  | nil => simp [strUnlines, splitNl]
  | cons l t ih =>
    have : strUnlines (l :: t) = l ++ '\n' :: strUnlines t := by
      simp [strUnlines]
    rw [this, splitNl_append_line l _ (h l (List.mem_cons_self l t)),
      ih fun b hb => h b (List.mem_cons_of_mem l hb)]
    rfl

theorem rustLines_unlines (ls : List Str) (h : ∀ l ∈ ls, '\n' ∉ l)
    (h2 : ∀ l ∈ ls, l.getLast? ≠ some '\r') :
    rustLines (strUnlines ls) = ls := by
  unfold rustLines
  rw [splitNl_unlines ls h]
  have hlast : (ls ++ [([] : Str)]).getLast? = some [] := by
    rw [List.getLast?_append]
    rfl
  rw [hlast, if_pos rfl, List.dropLast_concat]
  exact map_id_of_mem stripCr ls fun l hl => by simp [stripCr, h2 l hl]

/-- A line whose payload the parser rejects leaves the state exactly
unchanged (this also covers insignificant lines). -/
theorem processLine_noop (parse : Str → Option Json) (st : CollectorState)
    (line : Str) (hbad : parse (payloadOf line) = none) :
    processLine parse st line = st := by
  unfold payloadOf at hbad
  unfold processLine
  by_cases h1 : strStartsWith dataPrefix (strTrim line) = true
  · simp only [h1, if_true]
    by_cases h2 : strTrim (trimStartMatches dataPrefix (strTrim line)) = doneLit
    · simp [h2]
    · simp [h2, hbad]
  · simp [h1]

/-- A line whose payload is the `[DONE]` sentinel leaves the state exactly
unchanged. -/
theorem processLine_done (parse : Str → Option Json) (st : CollectorState)
    (line : Str) (hdone : payloadOf line = doneLit) :
    processLine parse st line = st := by
  unfold payloadOf at hdone
  unfold processLine
  by_cases h1 : strStartsWith dataPrefix (strTrim line) = true
  · simp [h1, hdone]
  · simp [h1]

/-- C6: a line whose payload fails to parse as JSON changes no aggregate
field and never aborts collection — the result over the whole stream
equals the result over the same stream with that line removed. -/
theorem malformed_line_is_noop (parse : Str → Option Json) (now : Nat)
    (pre post : List (Except Str Str)) (ls1 ls2 : List Str) (line : Str)
    (hnl : ∀ l ∈ ls1 ++ line :: ls2, '\n' ∉ l)
    (hcr : ∀ l ∈ ls1 ++ line :: ls2, l.getLast? ≠ some '\r')
    (hbad : (parse (payloadOf line)).isNone = true) :
    collect_stream_to_json parse now
        (pre ++ .ok (strUnlines (ls1 ++ line :: ls2)) :: post) =
      collect_stream_to_json parse now
        (pre ++ .ok (strUnlines (ls1 ++ ls2)) :: post) := by
  have hsub : ∀ l, l ∈ ls1 ++ ls2 → l ∈ ls1 ++ line :: ls2 := by
    intro l hl
    rcases List.mem_append.1 hl with hl1 | hl2
    · exact List.mem_append.2 (Or.inl hl1)
    · exact List.mem_append.2 (Or.inr (List.mem_cons_of_mem line hl2))
  have hbad2 : parse (payloadOf line) = none := Option.isNone_iff_eq_none.1 hbad
  unfold collect_stream_to_json
  rw [collectAux_append, collectAux_append]
  cases hA : collectAux parse (initState now) pre with
  | error e => rfl
  | ok st2 =>
    have hch : processChunk parse st2 (strUnlines (ls1 ++ line :: ls2)) =
        processChunk parse st2 (strUnlines (ls1 ++ ls2)) := by
      unfold processChunk
      rw [rustLines_unlines _ hnl hcr,
        rustLines_unlines _ (fun l hl => hnl l (hsub l hl))
          (fun l hl => hcr l (hsub l hl)),
        List.foldl_append, List.foldl_append, List.foldl_cons,
        processLine_noop parse _ line hbad2]
    simp only [collectAux]
    rw [hch]

theorem malformed_line_is_noop_witness :
    collect_stream_to_json (fun _ => none) 0
        [.ok (strUnlines ["x".toList, "data: notjson".toList])] =
      collect_stream_to_json (fun _ => none) 0
        [.ok (strUnlines ["x".toList])] :=
  malformed_line_is_noop (fun _ => none) 0 [] [] ["x".toList] []
    "data: notjson".toList (by decide) (by decide) (by decide)

/-- C7: a `[DONE]` sentinel line modifies no aggregate field and does not
terminate collection early — lines after it in the same chunk and chunks
after it in the stream are still processed, because the result equals the
result over the same stream with the sentinel line removed. -/
theorem done_sentinel_is_noop (parse : Str → Option Json) (now : Nat)
    (pre post : List (Except Str Str)) (ls1 ls2 : List Str) (line : Str)
    (hnl : ∀ l ∈ ls1 ++ line :: ls2, '\n' ∉ l)
    (hcr : ∀ l ∈ ls1 ++ line :: ls2, l.getLast? ≠ some '\r')
    (hdone : payloadOf line = doneLit) :
    collect_stream_to_json parse now
        (pre ++ .ok (strUnlines (ls1 ++ line :: ls2)) :: post) =
      collect_stream_to_json parse now
        (pre ++ .ok (strUnlines (ls1 ++ ls2)) :: post) := by
  have hsub : ∀ l, l ∈ ls1 ++ ls2 → l ∈ ls1 ++ line :: ls2 := by
    intro l hl
    rcases List.mem_append.1 hl with hl1 | hl2
    · exact List.mem_append.2 (Or.inl hl1)
    · exact List.mem_append.2 (Or.inr (List.mem_cons_of_mem line hl2))
  unfold collect_stream_to_json
  rw [collectAux_append, collectAux_append]
  cases hA : collectAux parse (initState now) pre with
  | error e => rfl
  | ok st2 =>
    have hch : processChunk parse st2 (strUnlines (ls1 ++ line :: ls2)) =
        processChunk parse st2 (strUnlines (ls1 ++ ls2)) := by
      unfold processChunk
      rw [rustLines_unlines _ hnl hcr,
        rustLines_unlines _ (fun l hl => hnl l (hsub l hl))
          (fun l hl => hcr l (hsub l hl)),
        List.foldl_append, List.foldl_append, List.foldl_cons,
        processLine_done parse _ line hdone]
    simp only [collectAux]
    rw [hch]

theorem done_sentinel_is_noop_witness :
    collect_stream_to_json (fun _ => none) 0
        [.ok (strUnlines ["data: [DONE]".toList, "data: after".toList]),
         .ok "tail\n".toList] =
      collect_stream_to_json (fun _ => none) 0
        [.ok (strUnlines ["data: after".toList]), .ok "tail\n".toList] :=
  done_sentinel_is_noop (fun _ => none) 0 [] [.ok "tail\n".toList] []
    ["data: after".toList] "data: [DONE]".toList
    (by decide) (by decide) (by decide)

theorem json_get_cons_ne (k : Str) (v : Json) (fields : List (Str × Json))
    (key : Str) (h : (key == k) = false) :
    (Json.obj ((k, v) :: fields)).get key = (Json.obj fields).get key := by
  simp [Json.get, List.lookup, h]

theorem json_get_cons_eq (k : Str) (v : Json) (fields : List (Str × Json))
    (key : Str) (h : (key == k) = true) :
    (Json.obj ((k, v) :: fields)).get key = some v := by
  simp [Json.get, List.lookup, h]

/-- C8: every successful run returns exactly one choice, at index 0, and
within each event only the first entry of the `choices` array is
inspected — replacing every entry past the first by arbitrary other
entries yields the same merge. -/
theorem single_choice_and_first_choice_only :
    (∀ (parse : Str → Option Json) (now : Nat)
        (items : List (Except Str Str)) (r : OpenAIResponse),
        collect_stream_to_json parse now items = .ok r →
        r.choices.map (fun c => c.index) = [0]) ∧
    (∀ (st : CollectorState) (fields : List (Str × Json)) (c : Json)
        (cs cs' : List Json),
        mergeEvent st (Json.obj (("choices".toList, Json.arr (c :: cs)) :: fields)) =
          mergeEvent st
            (Json.obj (("choices".toList, Json.arr (c :: cs')) :: fields))) := by
  constructor
  · intro parse now items r h
    rw [collect_ok_fields parse now items r h]
    simp [finalize]
  · intro st fields c cs cs'
    have key : ∀ l : List Json,
        mergeEvent st (Json.obj (("choices".toList, Json.arr (c :: l)) :: fields)) =
          { id := (((Json.obj fields).get "id".toList).bind Json.asStr).getD st.id
            created :=
              (((Json.obj fields).get "created".toList).bind Json.asU64).getD st.created
            model := (((Json.obj fields).get "model".toList).bind Json.asStr).getD st.model
            role := Option.or (dRole c) st.role
            content_parts := st.content_parts ++ dContent c
            reasoning_parts := st.reasoning_parts ++ dReasoning c
            finish_reason := Option.or (cFR c) st.finish_reason
            usage :=
              Option.or (((Json.obj fields).get "usage".toList).bind parseUsage)
                st.usage } := by
      intro l
      rw [mergeEvent_spec]
      have hA := json_get_cons_eq "choices".toList (Json.arr (c :: l)) fields
        "choices".toList (by simp)
      have hfc : firstChoice
          (Json.obj (("choices".toList, Json.arr (c :: l)) :: fields)) = some c := by
        unfold firstChoice
        rw [hA]
        simp [Json.asArr]
      simp only [evId, evModel, evCreated, evUsage, evRole, evContent, evReasoning,
        evFR]
      rw [hfc,
        json_get_cons_ne "choices".toList (Json.arr (c :: l)) fields "id".toList
          (by decide),
        json_get_cons_ne "choices".toList (Json.arr (c :: l)) fields "model".toList
          (by decide),
        json_get_cons_ne "choices".toList (Json.arr (c :: l)) fields "created".toList
          (by decide),
        json_get_cons_ne "choices".toList (Json.arr (c :: l)) fields "usage".toList
          (by decide)]
      rfl
    rw [key cs, key cs']

def c8Parse : Str → Option Json := fun s =>
  if s = "\x7b\"choices\":[\x7b\"delta\":\x7b\"content\":\"A\"\x7d\x7d,\x7b\"delta\":\x7b\"content\":\"B\"\x7d\x7d]\x7d".toList then
    some (Json.obj [("choices".toList, Json.arr
      [Json.obj [("delta".toList, Json.obj [("content".toList, Json.str "A".toList)])],
       Json.obj [("delta".toList, Json.obj [("content".toList, Json.str "B".toList)])]])])
  else none

def c8Items : List (Except Str Str) :=
  [.ok "data: \x7b\"choices\":[\x7b\"delta\":\x7b\"content\":\"A\"\x7d\x7d,\x7b\"delta\":\x7b\"content\":\"B\"\x7d\x7d]\x7d\n".toList]

def demoRes8 : OpenAIResponse :=
  match collect_stream_to_json c8Parse 0 c8Items with
  | .ok r => r
  | .error _ => finalize (initState 0)

theorem single_choice_and_first_choice_only_witness :
    demoRes8.choices.map (fun c => c.index) = [0] ∧
    mergeEvent (initState 0)
        (Json.obj [("choices".toList,
          Json.arr [Json.str "c0".toList, Json.str "x".toList])]) =
      mergeEvent (initState 0)
        (Json.obj [("choices".toList, Json.arr [Json.str "c0".toList])]) :=
  ⟨single_choice_and_first_choice_only.1 c8Parse 0 c8Items demoRes8 (by rfl),
   single_choice_and_first_choice_only.2 (initState 0) [] (Json.str "c0".toList)
     [Json.str "x".toList] []⟩

example : demoRes8.choices.map (fun c => c.message.content) =
    [some (OpenAIContent.str "A".toList)] := by decide

def c9Parse : Str → Option Json := fun s =>
  if s = "\x7b\"id\":\"xyz\"\x7d".toList then
    some (Json.obj [("id".toList, Json.str "xyz".toList)])
  else none

def c9Frag1 : Str := "data: ".toList

def c9Frag2 : Str := "data: \x7b\"id\":\"xyz\"\x7d\n".toList

/-- C9 (counterexample): the single event line `data: data: {"id":"xyz"}`
(repeated prefix, one payload) split right after the first `data: ` into
two chunks.  The second fragment is itself a well-formed `data: ` line
with the same payload, so it IS merged as that event: the collected id is
`xyz`, exactly as for the unsplit line, not the untouched sentinel the
claim predicts when it says neither fragment is merged. -/
theorem split_fragment_still_merged_counterexample :
    (collect_stream_to_json c9Parse 0 [.ok c9Frag1, .ok c9Frag2]).toOption.map
        (fun r => r.id) = some "xyz".toList ∧
    (collect_stream_to_json c9Parse 0 [.ok (c9Frag1 ++ c9Frag2)]).toOption.map
        (fun r => r.id) = some "xyz".toList ∧
    some ("xyz".toList) ≠ some ("chatcmpl-unknown".toList) := by
  refine ⟨by decide, by decide, by decide⟩

theorem processChunk_noop (parse : Str → Option Json) (c : Str)
    (h : ∀ l ∈ rustLines c, ∀ s, processLine parse s l = s)
    (st : CollectorState) : processChunk parse st c = st := by
  unfold processChunk
  have key : ∀ (lines : List Str),
      (∀ l ∈ lines, ∀ s, processLine parse s l = s) →
      ∀ st2 : CollectorState, lines.foldl (processLine parse) st2 = st2 := by
    intro lines hln
    induction lines with
    | nil => intro st2; rfl
    | cons a t ih =>
      intro st2
      rw [List.foldl_cons, hln a (List.mem_cons_self a t),
        ih (fun l hl => hln l (List.mem_cons_of_mem a hl))]
  exact key _ h st

/-- An untrimmed line without the `data: ` prefix leaves the state exactly
unchanged. -/
theorem processLine_insignificant (parse : Str → Option Json)
    (st : CollectorState) (line : Str)
    (h : strStartsWith dataPrefix (strTrim line) = false) :
    processLine parse st line = st := by
  unfold processLine
  simp [h]

/-- C9 (amended): each chunk is split into lines independently of all
other chunks, with no residual buffer; a `data: ` event line split across
two adjacent chunk boundaries is not reassembled, and neither fragment is
merged as that event whenever every line of the first fragment's chunk
carries a payload the parser rejects and no line of the second fragment's
chunk carries the `data: ` prefix (true of typical splits; a fragment that
itself forms a complete `data: ` line with the same payload is processed
as an event of its own) — removing both fragments leaves the result
unchanged. -/
theorem split_line_not_reassembled (parse : Str → Option Json) (now : Nat)
    (pre post : List (Except Str Str)) (frag1 frag2 : Str)
    (h1 : ∀ l ∈ rustLines frag1, (parse (payloadOf l)).isNone = true)
    (h2 : ∀ l ∈ rustLines frag2, strStartsWith dataPrefix (strTrim l) = false) :
    collect_stream_to_json parse now (pre ++ .ok frag1 :: .ok frag2 :: post) =
      collect_stream_to_json parse now (pre ++ post) := by
  unfold collect_stream_to_json
  rw [collectAux_append, collectAux_append]
  cases hA : collectAux parse (initState now) pre with
  | error e => rfl
  | ok st2 =>
    simp only [collectAux]
    rw [processChunk_noop parse frag1
        (fun l hl s => processLine_noop parse s l
          (Option.isNone_iff_eq_none.1 (h1 l hl))),
      processChunk_noop parse frag2
        (fun l hl s => processLine_insignificant parse s l (h2 l hl))]

def c9wParse : Str → Option Json := fun s =>
  if s = "\x7b\"a\":1\x7d".toList then some Json.null else none

theorem split_line_not_reassembled_witness :
    collect_stream_to_json c9wParse 0
        [.ok "data: \x7b\"a\"".toList, .ok ":1\x7d\n".toList] =
      collect_stream_to_json c9wParse 0 [] :=
  split_line_not_reassembled c9wParse 0 [] [] "data: \x7b\"a\"".toList
    ":1\x7d\n".toList (by decide) (by decide)

/-! ### Repeated prefix stripping (C10) -/

theorem trimL_eq_of_head (s : Str)
    (h : ∀ c, s.head? = some c → wsChar c = false) : trimL s = s := by
  cases s with
  | nil => rfl
  | cons c t => simp [trimL, List.dropWhile_cons, h c rfl]

theorem trimR_eq_of_last (s : Str)
    (h : ∀ c, s.getLast? = some c → wsChar c = false) : trimR s = s := by
  unfold trimR
  cases hs : s.reverse with
  | nil =>
    simp [(List.reverse_eq_nil_iff).1 hs]
  | cons c t =>
    have hc : wsChar c = false := h c (by rw [← List.head?_reverse, hs]; rfl)
    rw [List.dropWhile_cons, hc]
    simp only [Bool.false_eq_true, if_false]
    rw [← hs, List.reverse_reverse]

theorem strTrim_eq_of_ends (s : Str)
    (hh : ∀ c, s.head? = some c → wsChar c = false)
    (hl : ∀ c, s.getLast? = some c → wsChar c = false) : strTrim s = s := by
  unfold strTrim
  rw [trimL_eq_of_head s hh, trimR_eq_of_last s hl]

/-- `n` consecutive copies of the `data: ` prefix. -/
def repDataPrefix : Nat → Str
  | 0 => []
  | n + 1 => dataPrefix ++ repDataPrefix n

theorem repDataPrefix_length (n : Nat) : (repDataPrefix n).length = 6 * n := by
  induction n with
  | zero => rfl
  | succ n ih =>
    have hd : dataPrefix.length = 6 := by decide
    simp [repDataPrefix, ih, List.length_append, hd]
    omega

theorem tsmAux_not (pat s : Str) (fuel : Nat)
    (h : pat.isPrefixOf s = false) : trimStartMatchesAux pat fuel s = s := by
  cases fuel <;> simp [trimStartMatchesAux, h]

theorem tsmAux_rep (n : Nat) :
    ∀ (fuel : Nat) (p : Str), n ≤ fuel →
      dataPrefix.isPrefixOf p = false →
      trimStartMatchesAux dataPrefix fuel (repDataPrefix n ++ p) = p := by
  induction n with
  | zero =>
    intro fuel p _ hp
    simp only [repDataPrefix, List.nil_append]
    exact tsmAux_not _ _ _ hp
  | succ n ih =>
    intro fuel p hf hp
    obtain ⟨f, rfl⟩ : ∃ f, fuel = f + 1 := ⟨fuel - 1, by omega⟩
    have hpre : dataPrefix.isPrefixOf
        (dataPrefix ++ (repDataPrefix n ++ p)) = true :=
      List.isPrefixOf_iff_prefix.2 (List.prefix_append _ _)
    simp only [repDataPrefix, List.append_assoc, trimStartMatchesAux, hpre,
      Bool.and_true]
    rw [if_pos (by decide), List.drop_left]
    exact ih f p (by omega) hp

theorem trimStartMatches_rep (n : Nat) (p : Str)
    (hp : dataPrefix.isPrefixOf p = false) :
    trimStartMatches dataPrefix (repDataPrefix n ++ p) = p := by
  unfold trimStartMatches
  refine tsmAux_rep n _ p ?_ hp
  rw [List.length_append, repDataPrefix_length]
  omega

/-- C10: prefix stripping removes every consecutive leading repetition of
`data: ` from a significant line, not just one — for any payload `p` that
is non-empty, trimmed at both ends and not itself prefixed by `data: `,
the line made of `n + 1` copies of `data: ` followed by `p` is processed
exactly as the line `data: p`: the payload handed to the parser is `p`
itself, so a JSON payload is parsed and merged, and the `[DONE]` payload
is treated as the termination sentinel. -/
theorem repeated_data_prefix_stripped (parse : Str → Option Json)
    (st : CollectorState) (n : Nat) (p : Str) (hne : p ≠ [])
    (hh : p.head?.all (fun c => !wsChar c) = true)
    (hl : p.getLast?.all (fun c => !wsChar c) = true)
    (hnp : strStartsWith dataPrefix p = false) :
    processLine parse st (repDataPrefix (n + 1) ++ p) =
      (if p = doneLit then st
       else
         match parse p with
         | some j => mergeEvent st j
         | none => st) := by
  have hh2 : ∀ c, p.head? = some c → wsChar c = false := by
    intro c hc
    rw [hc] at hh
    simpa using hh
  have hl2 : ∀ c, p.getLast? = some c → wsChar c = false := by
    intro c hc
    rw [hc] at hl
    simpa using hl
  have hD : dataPrefix = 'd' :: "ata: ".toList := by decide
  have hhead : ∀ c, (repDataPrefix (n + 1) ++ p).head? = some c →
      wsChar c = false := by
    intro c hc
    rw [show repDataPrefix (n + 1) ++ p =
        dataPrefix ++ (repDataPrefix n ++ p) from by
          simp [repDataPrefix, List.append_assoc], hD, List.cons_append] at hc
    simp only [List.head?_cons, Option.some.injEq] at hc
    rw [← hc]
    decide
  have hlast : ∀ c, (repDataPrefix (n + 1) ++ p).getLast? = some c →
      wsChar c = false := by
    intro c hc
    rw [List.getLast?_append] at hc
    cases hp : p.getLast? with
    | none => exact absurd (List.getLast?_eq_none_iff.1 hp) hne
    | some c2 =>
      rw [hp] at hc
      simp [Option.or] at hc
      exact hc ▸ hl2 c2 hp
  have htrim : strTrim (repDataPrefix (n + 1) ++ p) =
      repDataPrefix (n + 1) ++ p := strTrim_eq_of_ends _ hhead hlast
  have hsw : strStartsWith dataPrefix (repDataPrefix (n + 1) ++ p) = true := by
    unfold strStartsWith
    refine List.isPrefixOf_iff_prefix.2 ?_
    rw [show repDataPrefix (n + 1) ++ p =
        dataPrefix ++ (repDataPrefix n ++ p) from by
          simp [repDataPrefix, List.append_assoc]]
    exact List.prefix_append _ _
  have hpay : trimStartMatches dataPrefix (repDataPrefix (n + 1) ++ p) = p :=
    trimStartMatches_rep (n + 1) p hnp
  unfold processLine
  rw [htrim]
  simp only [hsw, hpay, strTrim_eq_of_ends p hh2 hl2, if_true]

def c10Parse : Str → Option Json := fun s =>
  if s = "\x7b\"x\":true\x7d".toList then
    some (Json.obj [("x".toList, Json.bool true)])
  else none

theorem repeated_data_prefix_stripped_witness :
    processLine c10Parse (initState 0)
        (repDataPrefix 2 ++ "\x7b\"x\":true\x7d".toList) =
      (if "\x7b\"x\":true\x7d".toList = doneLit then initState 0
       else
         match c10Parse "\x7b\"x\":true\x7d".toList with
         | some j => mergeEvent (initState 0) j
         | none => initState 0) :=
  repeated_data_prefix_stripped c10Parse (initState 0) 1
    "\x7b\"x\":true\x7d".toList (by decide) (by decide) (by decide) (by decide)

example : processLine c10Parse (initState 0)
    "data: data: \x7b\"x\":true\x7d".toList =
      mergeEvent (initState 0) (Json.obj [("x".toList, Json.bool true)]) := by
  decide

example : processLine c10Parse (initState 0) "data: data: [DONE]".toList =
    initState 0 := by decide
